import Mathlib

/-!
Command-driven artifact cache (`src/cache/cmd_cache.go`).

A shallow embedding of the command cache of the build system: `keyToString`,
`cmdCache.Store`, `cmdCache.write`, `cmdCache.Retrieve` and `newCmdCache`.

* The sequential parts (`keyToString`, `Store`, `write`) are pure functions
  that return what the call did: the subprocess it spawned, the pipes it
  created, the chunks the writer task put on its sink, the log lines.
* `Retrieve` runs two tasks (the caller in `readTar`, and the goroutine that
  waits for the subprocess).  It is embedded as a transition system whose
  states record the program counter of each task, the pipe and the
  destination tree; `Retrieve.next` lists the successor states and
  `Retrieve.run` follows an arbitrary schedule.
-/

namespace CmdCache

/-- One byte of a cache key or of a file. -/
abbrev Byte := Fin 256

/-! ## Go standard library: `encoding/hex` and `path` -/

namespace hex

/-- Table `hextable` of `encoding/hex`. -/
def hextable : List Char :=
  ['0', '1', '2', '3', '4', '5', '6', '7', '8', '9', 'a', 'b', 'c', 'd', 'e', 'f']

/-- Lookup `hextable[n]`. -/
def digit (n : Nat) : Char := hextable.getD n '0'

/-- Loop of `hex.Encode`: `dst[j] = hextable[v>>4]; dst[j+1] = hextable[v&0x0f]`. -/
def Encode : List Byte → List Char
  | [] => []
  | v :: rest => digit (v.val >>> 4) :: digit (v.val &&& 0x0f) :: Encode rest

/-- Go `hex.EncodeToString`. -/
def EncodeToString (src : List Byte) : String := String.mk (Encode src)

end hex

namespace path

/-- Split a path at every slash. -/
def splitSlash : List Char → List (List Char)
  | [] => [[]]
  | c :: cs =>
    if c = '/' then [] :: splitSlash cs
    else
      match splitSlash cs with
      | [] => [[c]]
      | h :: t => (c :: h) :: t

/-- Lexical processing of `path.Clean`, on path elements: empty elements and `.`
are dropped, `..` removes the element before it, is dropped at the root, and is
kept at the start of a relative path.  `acc` holds the kept elements, last first. -/
def cleanElems (rooted : Bool) : List (List Char) → List (List Char) → List (List Char)
  | acc, [] => acc.reverse
  | acc, e :: es =>
    if e = [] ∨ e = ['.'] then cleanElems rooted acc es
    else if e = ['.', '.'] then
      match acc with
      | [] => if rooted then cleanElems rooted [] es else cleanElems rooted [e] es
      | top :: below =>
        if top = ['.', '.'] then cleanElems rooted (e :: acc) es
        else cleanElems rooted below es
    else cleanElems rooted (e :: acc) es

/-- Go `path.Clean`. -/
def Clean (p : List Char) : List Char :=
  if p = [] then ['.']
  else
    let rooted := p.head? = some '/'
    let body := ['/'].intercalate (cleanElems rooted [] (splitSlash p))
    if rooted then '/' :: body
    else if body = [] then ['.'] else body

/-- Go `path.Join` of two elements: empty elements are ignored, the rest is joined
with a slash and cleaned; the join of nothing is the empty string. -/
def Join (a b : String) : String :=
  if a.data = [] ∧ b.data = [] then ""
  else if a.data = [] then String.mk (Clean b.data)
  else if b.data = [] then String.mk (Clean a.data)
  else String.mk (Clean (a.data ++ '/' :: b.data))

end path

/-! ## Data model -/

/-- Record `cmdCache`. -/
structure cmdCache where
  storeCommand : String
  retrieveCommand : String
  deriving DecidableEq, Repr

/-- The part of `core.Configuration` that `newCmdCache` reads
(`config.Cache.StoreCommand`, `config.Cache.RetrieveCommand`). -/
structure Configuration where
  StoreCommand : String
  RetrieveCommand : String
  deriving DecidableEq, Repr

/-- The part of `core.BuildTarget` the cache uses: `target.Label` and
`target.OutDir()`. -/
structure BuildTarget where
  Label : String
  OutDir : String
  deriving DecidableEq, Repr

/-- Go `exec.Cmd`, as far as the cache sets it: program, arguments, environment. -/
structure Cmd where
  Path : String
  Args : List String
  Env : List String
  deriving DecidableEq, Repr

/-- Go `exec.Command(name, arg...)`: `Args` holds the name and the arguments, `Env`
is nil. -/
def execCommand (name : String) (args : List String) : Cmd :=
  { Path := name, Args := name :: args, Env := [] }

/-- Severity of a log line. -/
inductive Level
  | debug
  | info
  | warning
  deriving DecidableEq, Repr

/-- One call of `log.Debug`, `log.Info` or `log.Warning`: the format string and the
rendered arguments. -/
structure LogLine where
  level : Level
  format : String
  args : List String
  deriving DecidableEq, Repr

/-- One unit of the archive stream (`ArchiveEntry` of the data model): a path name,
an is-directory flag and, for files, the payload. -/
structure ArchiveEntry where
  name : String
  isDir : Bool
  payload : List Byte
  deriving DecidableEq, Repr

/-- What travels through the pipe, in the units the archive reader decodes: a
complete entry, the end-of-archive footer that closing the tar writer emits, or
bytes that do not decode as an entry. -/
inductive Chunk
  | entry (e : ArchiveEntry)
  | footer
  | garbage
  deriving DecidableEq, Repr

/-- A node of the output tree that `Store` archives. -/
inductive SrcNode
  | dir
  | file (content : List Byte)
  | unreadable
  deriving DecidableEq, Repr

/-- The file tree `Store` reads: path names with their nodes, in the order a
directory walk meets them. -/
abbrev SrcFS := List (String × SrcNode)

/-- A node of the tree `Retrieve` materialises. -/
inductive Node
  | dir
  | file (content : List Byte)
  deriving DecidableEq, Repr

/-- The destination tree of `Retrieve`; the first binding of a name is the
current one. -/
abbrev FS := List (String × Node)

/-- Node an entry materialises to. -/
def ArchiveEntry.node (e : ArchiveEntry) : Node :=
  if e.isDir then Node.dir else Node.file e.payload

/-- Destination node that equals a source node, when the source node is readable. -/
def SrcNode.toNode : SrcNode → Option Node
  | SrcNode.dir => some Node.dir
  | SrcNode.file c => some (Node.file c)
  | SrcNode.unreadable => none

/-! ## `keyToString` and `newCmdCache` -/

/-- Source `keyToString`: `hex.EncodeToString(key)`. -/
def keyToString (key : List Byte) : String := hex.EncodeToString key

/-- Source `newCmdCache`: copies the two command templates of the configuration. -/
def newCmdCache (config : Configuration) : cmdCache :=
  { storeCommand := config.StoreCommand, retrieveCommand := config.RetrieveCommand }

/-! ## The writer task: `cmdCache.write` -/

/-- Modelled from the spec: `storeFile(tw, name)` is not in the source file.  For a
directory it emits one entry with the directory flag, for a readable file one
entry carrying the full content; an unreadable or missing file emits nothing and
is an error. -/
def storeFile (fs : SrcFS) (tw : List Chunk) (name : String) : List Chunk × Option String :=
  match fs.lookup name with
  | some SrcNode.dir => (tw ++ [Chunk.entry ⟨name, true, []⟩], none)
  | some (SrcNode.file c) => (tw ++ [Chunk.entry ⟨name, false, c⟩], none)
  | some SrcNode.unreadable => (tw, some ("open " ++ name ++ ": permission denied"))
  | none => (tw, some ("lstat " ++ name ++ ": no such file or directory"))

/-- Modelled from the spec: names `fs.Walk(root, ...)` visits; `fs.Walk` is not in
the source file.  The root comes first; for a directory every descendant follows,
in the order of the tree.  A root that does not exist cannot be walked. -/
def walkNames (fs : SrcFS) (root : String) : Option (List String) :=
  match fs.lookup root with
  | none => none
  | some SrcNode.dir =>
    some (root :: (fs.map Prod.fst).filter
      (fun p => (root.data ++ ['/']).isPrefixOf p.data))
  | some _ => some [root]

/-- Modelled from the spec: the callback loop of `fs.Walk`; the first error a
callback returns ends the walk and is the walk's error. -/
def walkLoop (cb : List Chunk → String → List Chunk × Option String) :
    List Chunk → List String → List Chunk × Option String
  | tw, [] => (tw, none)
  | tw, n :: ns =>
    match cb tw n with
    | (tw', some err) => (tw', some err)
    | (tw', none) => walkLoop cb tw' ns

/-- Modelled from the spec: `fs.Walk(root, callback)`. -/
def Walk (fs : SrcFS) (root : String)
    (cb : List Chunk → String → List Chunk × Option String) (tw : List Chunk) :
    List Chunk × Option String :=
  match walkNames fs root with
  | none => (tw, some ("lstat " ++ root ++ ": no such file or directory"))
  | some names => walkLoop cb tw names

/-- What one run of `write` did. -/
structure WriteRun where
  /-- chunks written to the sink `w` through the tar writer, in order -/
  stream : List Chunk
  /-- roots passed to `fs.Walk`, in order -/
  walked : List String
  /-- number of `tw.Close()` calls -/
  twCloses : Nat
  /-- number of `w.Close()` calls -/
  wCloses : Nat
  log : List LogLine
  deriving DecidableEq, Repr

/-- Body of the loop of `write` for one requested output `out`: walk
`path.Join(outDir, out)`, storing every name visited; an error is logged as a
warning and the loop goes on. -/
def writeOne (fs : SrcFS) (outDir : String) (st : WriteRun) (out : String) : WriteRun :=
  let root := path.Join outDir out
  match Walk fs root (fun tw name => storeFile fs tw name) st.stream with
  | (tw, some err) =>
    { st with
      stream := tw
      walked := st.walked ++ [root]
      log := st.log ++
        [⟨Level.warning, "Error sending artifacts to command-driven cache: %s", [err]⟩] }
  | (tw, none) => { st with stream := tw, walked := st.walked ++ [root] }

/-- Source `cmdCache.write`: the loop over `files`, then the deferred calls in
reverse order, `tw.Close()` (which writes the footer) and `w.Close()`. -/
def write (fs : SrcFS) (target : BuildTarget) (files : List String) : WriteRun :=
  let st := files.foldl (writeOne fs target.OutDir) ⟨[], [], 0, 0, []⟩
  { st with
    stream := st.stream ++ [Chunk.footer]
    twCloses := st.twCloses + 1
    wCloses := st.wCloses + 1 }

/-! ## `cmdCache.Store` -/

/-- What one call of `Store` did, and the world it leaves. -/
structure StoreRun (ε : Type) where
  /-- state of the outside world (what the store command keeps) -/
  world : ε
  /-- subprocesses spawned -/
  spawned : List Cmd
  /-- number of `io.Pipe()` calls -/
  pipes : Nat
  /-- the writer tasks started with `go cache.write(...)` -/
  writers : List WriteRun
  log : List LogLine

/-- Source `cmdCache.Store`.  `sh cmd stdin world` is what
`cmd.CombinedOutput()` gives for a command that reads `stdin`: the new world, the
combined output and the error. -/
def Store {ε : Type} (sh : Cmd → List Chunk → ε → ε × String × Option String)
    (fs : SrcFS) (world : ε) (cache : cmdCache) (target : BuildTarget)
    (key : List Byte) (files : List String) : StoreRun ε :=
  if cache.storeCommand ≠ "" then
    let strKey := keyToString key
    let log₀ : List LogLine :=
      [⟨Level.debug, "Storing %s: %s in custom cache...", [target.Label, strKey]⟩]
    let cmd₀ := execCommand "sh" ["-c", cache.storeCommand]
    let cmd : Cmd := { cmd₀ with Env := cmd₀.Env ++ ["CACHE_KEY=" ++ strKey] }
    let wr := write fs target files
    match sh cmd wr.stream world with
    | (world', output, err) =>
      let log₁ : List LogLine :=
        match err with
        | some e => [⟨Level.debug, "Failed to store files via custom command: %s", [e]⟩]
        | none => []
      let log₂ : List LogLine :=
        if output.length > 0 then [⟨Level.info, "Custom command output:%s", [output]⟩] else []
      { world := world'
        spawned := [cmd]
        pipes := 1
        writers := [wr]
        log := log₀ ++ log₁ ++ log₂ }
  else
    { world := world, spawned := [], pipes := 0, writers := [], log := [] }

/-! ## `cmdCache.Retrieve` -/

/-- Behaviour of the subprocess `sh -c retrieveCommand`: whether `cmd.Start`
fails, the chunks it writes to its standard output, what it writes to standard
error, and the error `cmd.Wait` reports (none for exit status zero). -/
structure Script where
  startErr : Option String
  out : List Chunk
  stderr : String
  exitErr : Option String

/-- The outside world of one `Retrieve` call: the subprocess, and which
destination paths can be written. -/
structure World where
  proc : Script
  writable : String → Bool

/-- Error of `readTar`. -/
inductive TarErr
  | malformed
  | destWrite (name : String)
  | closedPipe
  deriving DecidableEq, Repr

/-- Text of a `readTar` error in a log line. -/
def TarErr.text : TarErr → String
  | TarErr.malformed => "archive/tar: invalid tar header"
  | TarErr.destWrite name => "open " ++ name ++ ": permission denied"
  | TarErr.closedPipe => "io: read/write on closed pipe"

/-- What a read on the pipe's read end gives the archive reader: the next chunk, or
the error of a pipe whose read end was closed.  The write end is never closed in
`Retrieve`, so a read never sees the end of the file. -/
inductive ReadEvent
  | data (c : Chunk)
  | closedPipe
  deriving DecidableEq, Repr

/-- Outcome of one round of the loop of `readTar`. -/
inductive ReadStep
  | more (dest : FS)
  | done (ok : Bool) (err : Option TarErr)
  deriving DecidableEq, Repr

/-- Modelled from the spec: one round of the loop of `readTar(r)`, which is not in
the source file.  An entry is materialised at the destination and the loop goes
on; the footer is the clean end of the stream and gives ok; a malformed entry, a
destination that cannot be written and a read error give not ok. -/
def readTarStep (writable : String → Bool) (dest : FS) : ReadEvent → ReadStep
  | ReadEvent.data (Chunk.entry e) =>
    if writable e.name then ReadStep.more ((e.name, e.node) :: dest)
    else ReadStep.done false (some (TarErr.destWrite e.name))
  | ReadEvent.data Chunk.footer => ReadStep.done true none
  | ReadEvent.data Chunk.garbage => ReadStep.done false (some TarErr.malformed)
  | ReadEvent.closedPipe => ReadStep.done false (some TarErr.closedPipe)

/-- Program counter of the task that called `Retrieve`. -/
inductive MainPc
  /-- before `cmd.Start()` -/
  | start
  /-- inside `readTar(r)`, at a read of the pipe -/
  | readTar
  /-- after `readTar` has returned `(ok, err)` -/
  | readDone (ok : Bool) (err : Option TarErr)
  /-- with `tarOk` true: at the receive `<-cmdResult` -/
  | recv
  /-- after `Retrieve` has returned `b` -/
  | returned (b : Bool)
  deriving DecidableEq, Repr

/-- Program counter of the goroutine that waits for the subprocess. -/
inductive WaitPc
  /-- not created -/
  | idle
  /-- inside `cmd.Wait()` -/
  | wait
  /-- after `cmd.Wait()` has returned and was logged; before `r.Close()` -/
  | close (ok : Bool)
  /-- after `r.Close()`; at the send `cmdResult <- ok` -/
  | send (ok : Bool)
  /-- the send was received; the goroutine has ended -/
  | done
  deriving DecidableEq, Repr

/-- State of one `Retrieve` call. -/
structure State where
  main : MainPc
  waiter : WaitPc
  /-- output of the subprocess that has not passed through the pipe yet -/
  pending : List Chunk
  /-- number of `r.Close()` calls so far -/
  rCloses : Nat
  /-- the destination tree -/
  dest : FS
  /-- what `readTar` returned, once it has -/
  tarResult : Option (Bool × Option TarErr)
  /-- the error `cmd.Wait` returned, once it has -/
  waitResult : Option (Option String)
  log : List LogLine
  deriving DecidableEq, Repr

namespace Retrieve

/-- The command `Retrieve` builds: `exec.Command("sh", "-c", retrieveCommand)` with
`CACHE_KEY=` and the key appended to its environment. -/
def command (cache : cmdCache) (key : List Byte) : Cmd :=
  let cmd₀ := execCommand "sh" ["-c", cache.retrieveCommand]
  { cmd₀ with Env := cmd₀.Env ++ ["CACHE_KEY=" ++ keyToString key] }

/-- State of `Retrieve` before `cmd.Start()`: the key is rendered and logged, the
command and the pipe exist, no task but the caller runs. -/
def init (target : BuildTarget) (key : List Byte) (dest : FS) : State :=
  { main := MainPc.start
    waiter := WaitPc.idle
    pending := []
    rCloses := 0
    dest := dest
    tarResult := none
    waitResult := none
    log := [⟨Level.debug, "Retrieve %s: %s from custom cache...",
      [target.Label, keyToString key]⟩] }

/-- The reader takes one read event: `readTar` goes on, or returns. -/
def afterRead (w : World) (s : State) (ev : ReadEvent) : State :=
  match readTarStep w.writable s.dest ev with
  | ReadStep.more d => { s with dest := d }
  | ReadStep.done ok err =>
    { s with main := MainPc.readDone ok err, tarResult := some (ok, err) }

/-- Steps of the calling task.
* `start`: `cmd.Start()`; on an error it is logged and `Retrieve` returns false;
  otherwise the subprocess runs, the waiting goroutine is created and the caller
  enters `readTar`.
* `readTar`: a read of the pipe.  A closed read end gives the error at once;
  otherwise the read takes the next chunk the subprocess writes, and blocks while
  there is none.
* `readDone`: the error is logged; `tarOk && <-cmdResult` returns false when
  `tarOk` is false and receives otherwise.
* `recv`: the receive completes when the goroutine is at its send. -/
def mainSteps (w : World) (s : State) : List State :=
  match s.main with
  | MainPc.start =>
    match w.proc.startErr with
    | some e =>
      [{ s with
         main := MainPc.returned false
         log := s.log ++
           [⟨Level.debug, "Unable to start custom retrieve command: %s", [e]⟩] }]
    | none => [{ s with main := MainPc.readTar, waiter := WaitPc.wait, pending := w.proc.out }]
  | MainPc.readTar =>
    if 0 < s.rCloses then [afterRead w s ReadEvent.closedPipe]
    else
      match s.pending with
      | [] => []
      | c :: rest => [afterRead w { s with pending := rest } (ReadEvent.data c)]
  | MainPc.readDone ok err =>
    let log :=
      match err with
      | some e => s.log ++ [⟨Level.debug, "Error in tar reader: %s", [e.text]⟩]
      | none => s.log
    if ok then [{ s with main := MainPc.recv, log := log }]
    else [{ s with main := MainPc.returned false, log := log }]
  | MainPc.recv =>
    match s.waiter with
    | WaitPc.send ok => [{ s with main := MainPc.returned (true && ok), waiter := WaitPc.done }]
    | _ => []
  | MainPc.returned _ => []

/-- Log lines of the goroutine after `cmd.Wait()`: the error, and the captured
standard error when it is not empty. -/
def waitLog (p : Script) : List LogLine :=
  (match p.exitErr with
    | some e => [⟨Level.debug, "Unable to unpack tar from custom command: %s", [e]⟩]
    | none => []) ++
  (if p.stderr.length > 0 then [⟨Level.debug, "Custom command output:%s", [p.stderr]⟩] else [])

/-- Steps of the waiting goroutine.
* `wait`: `cmd.Wait()` returns once the subprocess has exited and all its output
  has passed through the pipe (a write to the pipe blocks until it is read).
* `close`: `r.Close()`.
* `send`: blocks until the caller receives (see `mainSteps`). -/
def waiterSteps (w : World) (s : State) : List State :=
  match s.waiter with
  | WaitPc.wait =>
    if s.pending = [] then
      [{ s with
         waiter := WaitPc.close w.proc.exitErr.isNone
         waitResult := some w.proc.exitErr
         log := s.log ++ waitLog w.proc }]
    else []
  | WaitPc.close ok => [{ s with waiter := WaitPc.send ok, rCloses := s.rCloses + 1 }]
  | _ => []

/-- Successor states: one for each task that can take a step. -/
def next (w : World) (s : State) : List State := mainSteps w s ++ waiterSteps w s

/-- Follow a schedule: each number chooses among the tasks that can step.  A state
without successor stays. -/
def run (w : World) : List Nat → State → State
  | [], s => s
  | c :: cs, s =>
    match next w s with
    | [] => s
    | t :: ts => run w cs ((t :: ts).getD (c % (ts.length + 1)) t)

/-- Number of steps after which every schedule has come to rest. -/
def bound (w : World) : Nat := w.proc.out.length + 7

end Retrieve

/-- Source `cmdCache.Retrieve`, under a schedule: `exec` gives the behaviour of the
command that is spawned; the result of the call is the `main` of the state
reached. -/
def cmdCache.Retrieve (exec : Cmd → Script) (writable : String → Bool) (dest : FS)
    (cache : cmdCache) (target : BuildTarget) (key : List Byte)
    (sched : List Nat) : State :=
  Retrieve.run ⟨exec (Retrieve.command cache key), writable⟩ sched
    (Retrieve.init target key dest)

/-! ## What the writer task puts on its sink -/

/-- Chunks one walk of `write` adds to the stream. -/
def archived (fs : SrcFS) (root : String) : List Chunk :=
  (Walk fs root (fun tw name => storeFile fs tw name) []).1

/-- Error of one walk of `write`, if any. -/
def walkErr (fs : SrcFS) (root : String) : Option String :=
  (Walk fs root (fun tw name => storeFile fs tw name) []).2

/-- Warning `write` logs for a failed walk. -/
def walkWarning (err : String) : LogLine :=
  ⟨Level.warning, "Error sending artifacts to command-driven cache: %s", [err]⟩

/-! ## What a run of `Retrieve` must end with -/

/-- Result of letting the reader consume a stream as far as it goes. -/
structure Drained where
  /-- what `readTar` returns on the data alone; none when it has consumed all of
  it and waits for more -/
  verdict : Option (Bool × Option TarErr)
  /-- the destination tree at that point -/
  dest : FS
  /-- the chunks the reader did not consume -/
  rest : List Chunk
  deriving DecidableEq, Repr

/-- The reader of `readTarStep`, run over a whole stream. -/
def drain (writable : String → Bool) : FS → List Chunk → Drained
  | dest, [] => ⟨none, dest, []⟩
  | dest, c :: rest =>
    match readTarStep writable dest (ReadEvent.data c) with
    | ReadStep.more d => drain writable d rest
    | ReadStep.done ok err => ⟨some (ok, err), dest, rest⟩

/-- The data alone make `readTar` return ok. -/
def Drained.ok (d : Drained) : Bool :=
  match d.verdict with
  | some (true, _) => true
  | _ => false

namespace Retrieve

/-- Rank of the caller's program counter in the termination measure. -/
def mainRank (w : World) : MainPc → Nat
  | MainPc.start => w.proc.out.length + 7
  | MainPc.readTar => 3
  | MainPc.readDone _ _ => 2
  | MainPc.recv => 1
  | MainPc.returned _ => 0

/-- Rank of the goroutine's program counter in the termination measure. -/
def waitRank : WaitPc → Nat
  | WaitPc.idle => 0
  | WaitPc.wait => 3
  | WaitPc.close _ => 2
  | WaitPc.send _ => 1
  | WaitPc.done => 0

/-- Termination measure: every step makes it smaller. -/
def measure (w : World) (s : State) : Nat :=
  s.pending.length + mainRank w s.main + waitRank s.waiter

/-- The reader is through: the tree and the unread output are those of `drain`, and
`readTar` returned either the verdict of the data or, when the data ran out, the
error of the closed pipe. -/
def Finished (D : Drained) (s : State) (ok : Bool) (err : Option TarErr) : Prop :=
  s.dest = D.dest ∧ s.pending = D.rest ∧
    (D.verdict = some (ok, err) ∨
      (D.verdict = none ∧ ok = false ∧ err = some TarErr.closedPipe ∧ 0 < s.rCloses))

/-- Invariant, goroutine side. -/
def WaiterInv (w : World) (s : State) : Prop :=
  match s.waiter with
  | WaitPc.idle => s.main = MainPc.start
  | WaitPc.wait => s.rCloses = 0 ∧ s.waitResult = none
  | WaitPc.close ok =>
    s.rCloses = 0 ∧ s.pending = [] ∧ ok = w.proc.exitErr.isNone ∧
      s.waitResult = some w.proc.exitErr
  | WaitPc.send ok =>
    s.rCloses = 1 ∧ s.pending = [] ∧ ok = w.proc.exitErr.isNone ∧
      s.waitResult = some w.proc.exitErr
  | WaitPc.done =>
    s.rCloses = 1 ∧ s.pending = [] ∧ s.waitResult = some w.proc.exitErr ∧
      s.main = MainPc.returned w.proc.exitErr.isNone ∧
      ∃ err, s.tarResult = some (true, err)

/-- Invariant, caller side. -/
def MainInv (D : Drained) (w : World) (dest₀ : FS) (s : State) : Prop :=
  match s.main with
  | MainPc.start =>
    s.waiter = WaitPc.idle ∧ s.pending = [] ∧ s.rCloses = 0 ∧ s.dest = dest₀ ∧
      s.tarResult = none ∧ s.waitResult = none ∧ D = drain w.writable dest₀ w.proc.out
  | MainPc.readTar =>
    s.tarResult = none ∧ drain w.writable s.dest s.pending = D
  | MainPc.readDone ok err => s.tarResult = some (ok, err) ∧ Finished D s ok err
  | MainPc.recv => ∃ err, s.tarResult = some (true, err) ∧ Finished D s true err
  | MainPc.returned b =>
    ∃ ok err, s.tarResult = some (ok, err) ∧ Finished D s ok err ∧
      (ok = false → b = false ∧ s.waiter ≠ WaitPc.done) ∧
      (ok = true → s.waiter = WaitPc.done)

/-- Invariant of a `Retrieve` call whose command started. -/
def Inv (D : Drained) (w : World) (dest₀ : FS) (s : State) : Prop :=
  w.proc.startErr = none ∧ WaiterInv w s ∧ MainInv D w dest₀ s

end Retrieve

/-! ## A faithful pair of commands -/

/-- What the outside world keeps: archives by name. -/
abbrev ExtStore := List (String × List Chunk)

/-- Value of the variable `CACHE_KEY` in the environment of a command. -/
def cacheKeyOf (cmd : Cmd) : Option String :=
  cmd.Env.findSome? fun e =>
    if "CACHE_KEY=".data.isPrefixOf e.data then some (String.mk (e.data.drop 10)) else none

/-- A faithful store command, such as `cat > "$CACHE_KEY"`: it keeps the whole of
its standard input under the key, prints nothing and exits with status zero. -/
def faithfulStore (cmd : Cmd) (stdin : List Chunk) (ext : ExtStore) :
    ExtStore × String × Option String :=
  match cacheKeyOf cmd with
  | some k => ((k, stdin) :: ext, "", none)
  | none => (ext, "CACHE_KEY: unbound variable", some "exit status 1")

/-- The matching retrieve command, such as `cat "$CACHE_KEY"`: it writes what is
kept under the key and exits with status zero; without such an archive it writes
nothing to its standard output and exits with status one. -/
def faithfulRetrieve (ext : ExtStore) (cmd : Cmd) : Script :=
  match (cacheKeyOf cmd).bind fun k => ext.lookup k with
  | some stream => ⟨none, stream, "", none⟩
  | none => ⟨none, [], "cat: no such file or directory", some "exit status 1"⟩

/-- Bindings that materialising the entries of a stream adds to a tree, the last
entry first. -/
def landing : List Chunk → FS
  | [] => []
  | Chunk.entry e :: rest => landing rest ++ [(e.name, e.node)]
  | _ :: rest => landing rest

/-- An entry chunk whose node is the readable node of the tree at its name. -/
def Good (fs : SrcFS) (c : Chunk) : Prop :=
  ∃ e, c = Chunk.entry e ∧ (fs.lookup e.name).bind SrcNode.toNode = some e.node

/-! ## Sample inputs -/

/-- A build target. -/
def sampleTarget : BuildTarget := ⟨"//pkg:lib", "plz-out/gen/pkg"⟩

/-- A cache key of three bytes. -/
def sampleKey : List Byte := [1, 171, 255]

/-- A cache whose commands keep each archive in a file named after the key. -/
def sampleCache : cmdCache :=
  ⟨"cat > /tmp/cache/$CACHE_KEY", "cat /tmp/cache/$CACHE_KEY"⟩

/-- A retrieve command that cannot be started. -/
def unstartable : Script :=
  ⟨some "fork/exec /bin/sh: resource temporarily unavailable", [], "", none⟩

/-- A retrieve command that writes bytes that are no archive and exits with
status zero. -/
def garbled : Script := ⟨none, [Chunk.garbage], "", none⟩

/-- A retrieve command that writes nothing and exits with status one. -/
def silent : Script := ⟨none, [], "", some "exit status 1"⟩

/-- A retrieve command that writes an archive of one file and exits with status
zero. -/
def wellBehaved : Script :=
  ⟨none, [Chunk.entry ⟨"plz-out/gen/pkg/lib.a", false, [1, 2, 3]⟩, Chunk.footer], "", none⟩

/-- A store command that reads its input, prints nothing and exits with status
zero. -/
def quietShell (_ : Cmd) (_ : List Chunk) (world : Unit) : Unit × String × Option String :=
  (world, "", none)

/-- An output tree with three files, the second one unreadable. -/
def sampleTree : SrcFS :=
  [("plz-out/gen/pkg/a.o", SrcNode.file [1, 2]),
   ("plz-out/gen/pkg/b.o", SrcNode.unreadable),
   ("plz-out/gen/pkg/c.o", SrcNode.file [3])]

/-! ## Lemmas on the transition system -/

namespace Retrieve

theorem inv_init (w : World) (hstart : w.proc.startErr = none) (target : BuildTarget)
    (key : List Byte) (dest : FS) :
    Inv (drain w.writable dest w.proc.out) w dest (init target key dest) := by
  simp [Inv, WaiterInv, MainInv, init, hstart]

theorem measure_next (w : World) (s s' : State) (h : s' ∈ next w s) :
    measure w s' < measure w s := by
  rcases s with ⟨main, waiter, pending, rc, dest, tr, wres, log⟩
  simp only [next, List.mem_append] at h
  rcases h with h | h
  · cases main with
    | start =>
      cases hs : w.proc.startErr <;> simp [mainSteps, hs] at h <;> subst h <;>
        cases waiter <;> simp [measure, mainRank, waitRank] <;> omega
    | readTar =>
      simp only [mainSteps] at h
      split at h
      · simp [afterRead, readTarStep] at h
        subst h
        simp [measure, mainRank, waitRank]
      · cases pending with
        | nil => simp at h
        | cons c rest =>
          simp only [List.mem_singleton] at h
          subst h
          cases c with
          | entry e =>
            by_cases hw : w.writable e.name <;>
              simp [afterRead, readTarStep, hw, measure, mainRank]
          | footer => simp [afterRead, readTarStep, measure, mainRank]
          | garbage => simp [afterRead, readTarStep, measure, mainRank]
    | readDone ok err =>
      cases ok <;> simp [mainSteps] at h <;> subst h <;> simp [measure, mainRank]
    | recv =>
      cases waiter <;> simp [mainSteps] at h
      subst h
      simp [measure, mainRank, waitRank]
      omega
    | returned b => simp [mainSteps] at h
  · cases waiter with
    | wait =>
      simp only [waiterSteps] at h
      split at h
      · simp at h
        subst h
        simp [measure, waitRank]
      · simp at h
    | close ok =>
      simp [waiterSteps] at h
      subst h
      simp [measure, waitRank]
    | idle => simp [waiterSteps] at h
    | send ok => simp [waiterSteps] at h
    | done => simp [waiterSteps] at h

theorem inv_next (D : Drained) (w : World) (dest₀ : FS) (s s' : State)
    (hinv : Inv D w dest₀ s) (h : s' ∈ next w s) : Inv D w dest₀ s' := by
  rcases s with ⟨main, waiter, pending, rc, dest, tr, wres, log⟩
  obtain ⟨hst, hW, hM⟩ := hinv
  refine ⟨hst, ?_⟩
  simp only [next, List.mem_append] at h
  rcases h with h | h
  · cases main with
    | start =>
      simp [mainSteps, hst] at h
      subst h
      simp [MainInv] at hM
      obtain ⟨h1, h2, h3, h4, h5, h6, h7⟩ := hM
      subst h1 h2 h3 h4 h5 h6 h7
      simp [WaiterInv, MainInv]
    | readTar =>
      simp only [mainSteps] at h
      simp only [MainInv] at hM
      obtain ⟨htr, hD⟩ := hM
      subst hD
      split at h
      · rename_i hrc
        simp [afterRead, readTarStep] at h
        subst h
        cases waiter <;> simp [WaiterInv] at hW <;> simp_all [WaiterInv, MainInv, Finished, drain]
      · rename_i hrc
        cases pending with
        | nil => simp at h
        | cons c rest =>
          simp only [List.mem_singleton] at h
          subst h
          cases c with
          | entry e =>
            by_cases hw : w.writable e.name <;>
              cases waiter <;> simp [WaiterInv] at hW <;>
              simp_all [WaiterInv, MainInv, Finished, drain, afterRead, readTarStep]
          | footer =>
            cases waiter <;> simp [WaiterInv] at hW
            simp_all [WaiterInv, MainInv, Finished, drain, afterRead, readTarStep]
          | garbage =>
            cases waiter <;> simp [WaiterInv] at hW
            simp_all [WaiterInv, MainInv, Finished, drain, afterRead, readTarStep]
    | readDone ok err =>
      cases ok <;> simp [mainSteps] at h <;> subst h <;>
        cases waiter <;> simp [WaiterInv] at hW <;>
        simp_all [WaiterInv, MainInv, Finished]
    | recv =>
      cases waiter <;> simp [mainSteps] at h
      subst h
      obtain ⟨err, h1, h2⟩ := hM
      simp_all [WaiterInv, MainInv, Finished]
    | returned b => simp [mainSteps] at h
  · cases waiter with
    | wait =>
      simp only [waiterSteps] at h
      split at h
      · simp at h
        subst h
        cases main with
        | returned b =>
          obtain ⟨ok, err, h1, h2, h3, h4⟩ := hM
          refine ⟨?_, ok, err, h1, h2, ?_, ?_⟩ <;> simp_all [WaiterInv]
        | _ => simp_all [WaiterInv, MainInv, Finished]
      · simp at h
    | close ok =>
      simp [waiterSteps] at h
      subst h
      cases main with
      | returned b =>
        obtain ⟨ok, err, h1, ⟨h2, h2', h2''⟩, h3, h4⟩ := hM
        refine ⟨?_, ok, err, h1, ⟨h2, h2', ?_⟩, ?_, ?_⟩ <;> simp_all [WaiterInv]
      | _ => simp_all [WaiterInv, MainInv, Finished]
    | idle => simp [waiterSteps] at h
    | send ok => simp [waiterSteps] at h
    | done => simp [waiterSteps] at h

theorem pick_mem (t : State) (ts : List State) (i : Nat) :
    (t :: ts).getD i t ∈ t :: ts := by
  by_cases hi : i < (t :: ts).length
  · rw [List.getD_eq_getElem _ _ hi]
    exact List.getElem_mem hi
  · rw [List.getD_eq_default _ _ (by omega)]
    exact List.mem_cons_self t ts

theorem inv_run (D : Drained) (w : World) (dest₀ : FS) (sched : List Nat) :
    ∀ s : State, Inv D w dest₀ s → Inv D w dest₀ (run w sched s) := by
  induction sched with
  | nil => intro s h; exact h
  | cons c cs ih =>
    intro s h
    simp only [run]
    cases hn : next w s with
    | nil => exact h
    | cons t ts =>
      have hm : (t :: ts).getD (c % (ts.length + 1)) t ∈ next w s := by
        rw [hn]
        exact pick_mem t ts _
      exact ih _ (inv_next D w dest₀ s _ h hm)

theorem run_terminal (w : World) (sched : List Nat) :
    ∀ s : State, measure w s ≤ sched.length → next w (run w sched s) = [] := by
  induction sched with
  | nil =>
    intro s h
    cases hn : next w s with
    | nil => simpa [run] using hn
    | cons t ts =>
      have := measure_next w s t (hn ▸ List.mem_cons_self t ts)
      simp at h
      omega
  | cons c cs ih =>
    intro s h
    simp only [run]
    cases hn : next w s with
    | nil => simpa using hn
    | cons t ts =>
      have hm : (t :: ts).getD (c % (ts.length + 1)) t ∈ next w s := by
        rw [hn]
        exact pick_mem t ts _
      have := measure_next w s _ hm
      simp at h
      exact ih _ (by omega)

/-- A state at rest has returned, or the caller waits at the receive while the
goroutine waits for output that nobody reads. -/
theorem terminal_cases (D : Drained) (w : World) (dest₀ : FS) (s : State)
    (hinv : Inv D w dest₀ s) (hterm : next w s = []) :
    (∃ b, s.main = MainPc.returned b) ∨
      (s.main = MainPc.recv ∧ s.waiter = WaitPc.wait ∧ D.ok = true ∧ D.rest ≠ []) := by
  rcases s with ⟨main, waiter, pending, rc, dest, tr, wres, log⟩
  obtain ⟨hst, hW, hM⟩ := hinv
  simp only [next, List.append_eq_nil] at hterm
  obtain ⟨h1, h2⟩ := hterm
  cases main with
  | start => simp [mainSteps, hst] at h1
  | readTar =>
    cases waiter with
    | idle => simp [WaiterInv] at hW
    | wait =>
      simp [WaiterInv] at hW
      cases pending <;> simp_all [mainSteps, waiterSteps]
    | close ok => simp [waiterSteps] at h2
    | send ok =>
      simp [WaiterInv] at hW
      simp [mainSteps, hW.1] at h1
    | done => simp [WaiterInv] at hW
  | readDone ok err => cases ok <;> simp [mainSteps] at h1
  | recv =>
    right
    obtain ⟨err, htr, hd, hp, hv⟩ := hM
    cases waiter with
    | idle => simp [WaiterInv] at hW
    | wait =>
      simp [waiterSteps] at h2
      simp at hp
      refine ⟨rfl, rfl, ?_, hp ▸ h2⟩
      rcases hv with hv | hv
      · simp [Drained.ok, hv]
      · simp at hv
    | close ok => simp [waiterSteps] at h2
    | send ok => simp [mainSteps] at h1
    | done => simp [WaiterInv] at hW
  | returned b => exact Or.inl ⟨b, rfl⟩

/-- What a call that has returned gave, and what it left. -/
theorem returned_spec (D : Drained) (w : World) (dest₀ : FS) (s : State) (b : Bool)
    (hinv : Inv D w dest₀ s) (hret : s.main = MainPc.returned b) :
    b = (D.ok && w.proc.exitErr.isNone) ∧ s.dest = D.dest ∧ (D.ok = true → D.rest = []) := by
  rcases s with ⟨main, waiter, pending, rc, dest, tr, wres, log⟩
  obtain ⟨hst, hW, hM⟩ := hinv
  simp only at hret
  subst hret
  obtain ⟨ok, err, htr, ⟨hd, hp, hv⟩, hf, ht⟩ := hM
  cases ok with
  | true =>
    simp at ht hv hp hd
    subst ht
    simp [WaiterInv] at hW
    simp [Drained.ok, hv, hW.2.2.2.1, ← hp, hW.2.1, hd]
  | false =>
    simp at hf hd
    rcases hv with hv | hv
    · simp [Drained.ok, hv, hf.1, hd]
    · simp [Drained.ok, hv.1, hf.1, hd]

end Retrieve

/-! ## The cache key -/

namespace hex

theorem digit_mem (n : Nat) (h : n < 16) : digit n ∈ hextable := by
  have : ∀ m : Fin 16, digit m.val ∈ hextable := by decide
  exact this ⟨n, h⟩

theorem hi_lt (v : Byte) : v.val >>> 4 < 16 := by
  rw [Nat.shiftRight_eq_div_pow]
  omega

theorem lo_lt (v : Byte) : v.val &&& 0x0f < 16 := by
  have : v.val &&& 0x0f = v.val % 2 ^ 4 := Nat.and_pow_two_sub_one_eq_mod v.val 4
  omega

theorem hi_eq (v : Byte) : v.val >>> 4 = v.val / 16 := by
  rw [Nat.shiftRight_eq_div_pow]

theorem lo_eq (v : Byte) : v.val &&& 0x0f = v.val % 16 :=
  Nat.and_pow_two_sub_one_eq_mod v.val 4

theorem Encode_length (src : List Byte) : (Encode src).length = 2 * src.length := by
  induction src with
  | nil => rfl
  | cons v rest ih => simp [Encode, ih]; omega

theorem Encode_mem (src : List Byte) : ∀ c ∈ Encode src, c ∈ hextable := by
  induction src with
  | nil => simp [Encode]
  | cons v rest ih =>
    intro c hc
    simp only [Encode, List.mem_cons] at hc
    rcases hc with hc | hc | hc
    · exact hc ▸ digit_mem _ (hi_lt v)
    · exact hc ▸ digit_mem _ (lo_lt v)
    · exact ih c hc

theorem Encode_get (src : List Byte) :
    ∀ (i : Nat) (h : i < src.length),
      (Encode src)[2 * i]? = some (digit (src[i].val / 16)) ∧
      (Encode src)[2 * i + 1]? = some (digit (src[i].val % 16)) := by
  induction src with
  | nil => intro i h; simp at h
  | cons v rest ih =>
    intro i h
    cases i with
    | zero => simp [Encode, hi_eq, lo_eq]
    | succ j =>
      have hj : j < rest.length := by simpa using h
      have := ih j hj
      simpa [Encode, Nat.mul_succ] using this

end hex

/-- Command that `Store` spawns. -/
theorem store_spawns {ε : Type} (sh : Cmd → List Chunk → ε → ε × String × Option String)
    (fs : SrcFS) (world : ε) (cache : cmdCache) (target : BuildTarget) (key : List Byte)
    (files : List String) (hcmd : cache.storeCommand ≠ "") :
    let r := Store sh fs world cache target key files
    let cmd : Cmd :=
      ⟨"sh", ["sh", "-c", cache.storeCommand], ["CACHE_KEY=" ++ keyToString key]⟩
    r.spawned = [cmd] ∧ r.pipes = 1 ∧ r.writers = [write fs target files] ∧
      r.world = (sh cmd (write fs target files).stream world).1 := by
  simp only [Store, hcmd]
  rcases hsh : sh _ _ world with ⟨world', output, err⟩
  simp [execCommand] at hsh
  simp [execCommand, hsh, hcmd]

/-- A cache without store command does nothing in `Store`. -/
theorem store_skips {ε : Type} (sh : Cmd → List Chunk → ε → ε × String × Option String)
    (fs : SrcFS) (world : ε) (cache : cmdCache) (target : BuildTarget) (key : List Byte)
    (files : List String) (hcmd : cache.storeCommand = "") :
    Store sh fs world cache target key files =
      { world := world, spawned := [], pipes := 0, writers := [], log := [] } := by
  simp [Store, hcmd]

/-- C3: `Store` (when it spawns) and `Retrieve` give the spawned command exactly one
environment entry, `CACHE_KEY=` followed by `keyToString key`; that string is the
lowercase hexadecimal encoding of the key: its length is twice the number of key
bytes, every character is one of `0-9a-f`, and characters `2i` and `2i+1` are the
digits of the high and the low nibble of byte `i`. -/
theorem cache_key_env {ε : Type} (sh : Cmd → List Chunk → ε → ε × String × Option String)
    (fs : SrcFS) (world : ε) (exec : Cmd → Script) (writable : String → Bool) (dest : FS)
    (cache : cmdCache) (target : BuildTarget) (key : List Byte) (files : List String)
    (sched : List Nat) (i : Nat) (hcmd : cache.storeCommand ≠ "") (hi : i < key.length) :
    (Store sh fs world cache target key files).spawned =
        [⟨"sh", ["sh", "-c", cache.storeCommand], ["CACHE_KEY=" ++ keyToString key]⟩] ∧
      cmdCache.Retrieve exec writable dest cache target key sched =
        Retrieve.run
          ⟨exec ⟨"sh", ["sh", "-c", cache.retrieveCommand], ["CACHE_KEY=" ++ keyToString key]⟩,
            writable⟩
          sched (Retrieve.init target key dest) ∧
      (keyToString key).length = 2 * key.length ∧
      (∀ c ∈ (keyToString key).data, c ∈ "0123456789abcdef".data) ∧
      (keyToString key).data[2 * i]? = "0123456789abcdef".data[key[i].val / 16]? ∧
      (keyToString key).data[2 * i + 1]? = "0123456789abcdef".data[key[i].val % 16]? := by
  have htab : "0123456789abcdef".data = hex.hextable := by decide
  have hdig : ∀ n, n < 16 → hex.hextable[n]? = some (hex.digit n) := by
    intro n hn
    have : ∀ m : Fin 16, hex.hextable[m.val]? = some (hex.digit m.val) := by decide
    exact this ⟨n, hn⟩
  refine ⟨?_, rfl, ?_, ?_, ?_, ?_⟩
  · exact (store_spawns sh fs world cache target key files hcmd).1
  · simp [keyToString, hex.EncodeToString, String.length, hex.Encode_length]
  · intro c hc
    rw [htab]
    exact hex.Encode_mem key c (by simpa [keyToString, hex.EncodeToString] using hc)
  · rw [htab, hdig _ (by omega)]
    exact (hex.Encode_get key i hi).1
  · rw [htab, hdig _ (by omega)]
    exact (hex.Encode_get key i hi).2

/-! ## `write` and `Store` -/

theorem storeFile_append (fs : SrcFS) (tw : List Chunk) (name : String) :
    storeFile fs tw name = (tw ++ (storeFile fs [] name).1, (storeFile fs [] name).2) := by
  unfold storeFile
  cases h : fs.lookup name with
  | none => simp
  | some n => cases n <;> simp

theorem walkLoop_append (fs : SrcFS) (names : List String) :
    ∀ tw : List Chunk,
      walkLoop (fun tw name => storeFile fs tw name) tw names =
        (tw ++ (walkLoop (fun tw name => storeFile fs tw name) [] names).1,
          (walkLoop (fun tw name => storeFile fs tw name) [] names).2) := by
  induction names with
  | nil => intro tw; simp [walkLoop]
  | cons n ns ih =>
    intro tw
    simp only [walkLoop]
    rw [storeFile_append fs tw n]
    cases h2 : (storeFile fs [] n).2 with
    | some e =>
      have : storeFile fs [] n = ((storeFile fs [] n).1, some e) := by rw [← h2]
      rw [this]
    | none =>
      have : storeFile fs [] n = ((storeFile fs [] n).1, none) := by rw [← h2]
      rw [this]
      simp only
      rw [ih (tw ++ (storeFile fs [] n).1), ih (storeFile fs [] n).1]
      simp

theorem Walk_append (fs : SrcFS) (root : String) (tw : List Chunk) :
    Walk fs root (fun tw name => storeFile fs tw name) tw =
      (tw ++ archived fs root, walkErr fs root) := by
  unfold archived walkErr Walk
  cases h : walkNames fs root with
  | none => simp
  | some names => simpa using walkLoop_append fs names tw

theorem writeOne_eq (fs : SrcFS) (outDir : String) (st : WriteRun) (out : String) :
    writeOne fs outDir st out =
      { stream := st.stream ++ archived fs (path.Join outDir out)
        walked := st.walked ++ [path.Join outDir out]
        twCloses := st.twCloses
        wCloses := st.wCloses
        log := st.log ++ ((walkErr fs (path.Join outDir out)).map walkWarning).toList } := by
  unfold writeOne
  simp only [Walk_append]
  cases h : walkErr fs (path.Join outDir out) <;> simp [walkWarning]

theorem foldl_writeOne (fs : SrcFS) (outDir : String) (files : List String) :
    ∀ st : WriteRun,
      files.foldl (writeOne fs outDir) st =
        { stream := st.stream ++ (files.map fun o => archived fs (path.Join outDir o)).flatten
          walked := st.walked ++ files.map (path.Join outDir)
          twCloses := st.twCloses
          wCloses := st.wCloses
          log := st.log ++
            (files.map fun o => ((walkErr fs (path.Join outDir o)).map walkWarning).toList).flatten } := by
  induction files with
  | nil => intro st; simp
  | cons f fs' ih =>
    intro st
    simp only [List.foldl_cons]
    rw [ih, writeOne_eq]
    simp

theorem write_eq (fs : SrcFS) (target : BuildTarget) (files : List String) :
    write fs target files =
      { stream := (files.map fun o => archived fs (path.Join target.OutDir o)).flatten ++ [Chunk.footer]
        walked := files.map (path.Join target.OutDir)
        twCloses := 1
        wCloses := 1
        log :=
          (files.map fun o =>
            ((walkErr fs (path.Join target.OutDir o)).map walkWarning).toList).flatten } := by
  unfold write
  rw [foldl_writeOne]
  simp

theorem archived_file (fs : SrcFS) (root : String) (content : List Byte)
    (h : fs.lookup root = some (SrcNode.file content)) :
    archived fs root = [Chunk.entry ⟨root, false, content⟩] ∧ walkErr fs root = none := by
  simp [archived, walkErr, Walk, walkNames, h, walkLoop, storeFile]

/-- C7: `write` walks every requested path, in list order, whether or not earlier
walks failed; the stream is the concatenation of what each walk archived, then the
footer, so a readable file that was requested is in the stream whatever happened
to the other paths; each failed walk is one warning; and `Store` still spawns its
command with that writer and returns. -/
theorem write_best_effort {ε : Type}
    (sh : Cmd → List Chunk → ε → ε × String × Option String) (fs : SrcFS) (world : ε)
    (cache : cmdCache) (target : BuildTarget) (key : List Byte) (files : List String)
    (out : String) (content : List Byte) (hcmd : cache.storeCommand ≠ "")
    (hout : out ∈ files)
    (hfile : fs.lookup (path.Join target.OutDir out) = some (SrcNode.file content)) :
    (write fs target files).walked = files.map (path.Join target.OutDir) ∧
      (write fs target files).stream =
        (files.map fun o => archived fs (path.Join target.OutDir o)).flatten ++
          [Chunk.footer] ∧
      Chunk.entry ⟨path.Join target.OutDir out, false, content⟩ ∈
        (write fs target files).stream ∧
      (write fs target files).log =
        (files.map fun o =>
          ((walkErr fs (path.Join target.OutDir o)).map walkWarning).toList).flatten ∧
      (Store sh fs world cache target key files).writers = [write fs target files] ∧
      (Store sh fs world cache target key files).spawned.length = 1 := by
  have hs := store_spawns sh fs world cache target key files hcmd
  refine ⟨?_, ?_, ?_, ?_, hs.2.2.1, ?_⟩
  · rw [write_eq]
  · rw [write_eq]
  · rw [write_eq]
    simp only [List.mem_append, List.mem_flatten, List.mem_map]
    left
    exact ⟨_, ⟨out, hout, rfl⟩, by rw [(archived_file fs _ content hfile).1]; simp⟩
  · rw [write_eq]
  · rw [hs.1]
    rfl

/-- C4: with an empty store command, `Store` spawns nothing, creates no pipe, starts
no writer task, logs nothing and leaves the world as it was. -/
theorem store_empty_command {ε : Type}
    (sh : Cmd → List Chunk → ε → ε × String × Option String) (fs : SrcFS) (world : ε)
    (cache : cmdCache) (target : BuildTarget) (key : List Byte) (files : List String)
    (hcmd : cache.storeCommand = "") :
    (Store sh fs world cache target key files).spawned.length = 0 ∧
      (Store sh fs world cache target key files).pipes = 0 ∧
      (Store sh fs world cache target key files).writers = [] ∧
      (Store sh fs world cache target key files).log = [] ∧
      (Store sh fs world cache target key files).world = world := by
  rw [store_skips sh fs world cache target key files hcmd]
  simp

/-- C5, as amended: `Store` looks at the store command only.  For the cache of any
configuration it spawns no subprocess when the store command is empty and exactly
one (with one pipe and one writer task) when it is not, and what it does is the
same for every retrieve command, the empty one included. -/
theorem store_gate_is_store_command {ε : Type}
    (sh : Cmd → List Chunk → ε → ε × String × Option String) (fs : SrcFS) (world : ε)
    (config : Configuration) (target : BuildTarget) (key : List Byte)
    (files : List String) (rc : String) :
    (Store sh fs world (newCmdCache config) target key files).spawned.length =
        (if config.StoreCommand = "" then 0 else 1) ∧
      (Store sh fs world (newCmdCache config) target key files).pipes =
        (if config.StoreCommand = "" then 0 else 1) ∧
      (Store sh fs world (newCmdCache config) target key files).writers.length =
        (if config.StoreCommand = "" then 0 else 1) ∧
      (Store sh fs world (newCmdCache ⟨config.StoreCommand, rc⟩) target key files).spawned =
        (Store sh fs world (newCmdCache config) target key files).spawned ∧
      (Store sh fs world (newCmdCache ⟨config.StoreCommand, rc⟩) target key files).writers =
        (Store sh fs world (newCmdCache config) target key files).writers ∧
      (Store sh fs world (newCmdCache ⟨config.StoreCommand, rc⟩) target key files).log =
        (Store sh fs world (newCmdCache config) target key files).log := by
  by_cases hcmd : config.StoreCommand = ""
  · have h1 := store_skips sh fs world (newCmdCache config) target key files hcmd
    have h2 := store_skips sh fs world (newCmdCache ⟨config.StoreCommand, rc⟩) target key
      files hcmd
    rw [h1, h2]
    simp [hcmd]
  · have h1 := store_spawns sh fs world (newCmdCache config) target key files hcmd
    have h2 := store_spawns sh fs world (newCmdCache ⟨config.StoreCommand, rc⟩) target key
      files hcmd
    refine ⟨?_, ?_, ?_, ?_, ?_, ?_⟩
    · rw [h1.1]; simp [hcmd]
    · rw [h1.2.1]; simp [hcmd]
    · rw [h1.2.2.1]; simp [hcmd]
    · rw [h1.1, h2.1]; rfl
    · rw [h1.2.2.1, h2.2.2.1]
    · simp [Store, newCmdCache]

/-! ## `Retrieve`: results -/

namespace Retrieve

theorem run_of_terminal (w : World) (sched : List Nat) (s : State) (h : next w s = []) :
    run w sched s = s := by
  cases sched <;> simp [run, h]

theorem bound_eq (w : World) (target : BuildTarget) (key : List Byte) (dest : FS) :
    measure w (init target key dest) = bound w := by
  simp [measure, init, mainRank, waitRank, bound]

theorem drain_not_closed (wr : String → Bool) (cs : List Chunk) :
    ∀ (dest : FS) (ok : Bool),
      (drain wr dest cs).verdict ≠ some (ok, some TarErr.closedPipe) := by
  induction cs with
  | nil => intro dest ok; simp [drain]
  | cons c rest ih =>
    intro dest ok
    cases c with
    | entry e =>
      by_cases hw : wr e.name
      · simpa [drain, readTarStep, hw] using ih _ ok
      · simp [drain, readTarStep, hw]
    | footer => simp [drain, readTarStep]
    | garbage => simp [drain, readTarStep]

/-- State after a failed `cmd.Start()`. -/
theorem spawn_failure_run (w : World) (e : String) (hstart : w.proc.startErr = some e)
    (target : BuildTarget) (key : List Byte) (dest : FS) (c : Nat) (cs : List Nat) :
    run w (c :: cs) (init target key dest) =
      { init target key dest with
        main := MainPc.returned false
        log := (init target key dest).log ++
          [⟨Level.debug, "Unable to start custom retrieve command: %s", [e]⟩] } := by
  simp only [run]
  have hn : next w (init target key dest) =
      [{ init target key dest with
        main := MainPc.returned false
        log := (init target key dest).log ++
          [⟨Level.debug, "Unable to start custom retrieve command: %s", [e]⟩] }] := by
    simp [next, mainSteps, waiterSteps, init, hstart]
  rw [hn]
  simp only [List.length_nil, Nat.zero_add, Nat.mod_one, List.getD_cons_zero]
  apply run_of_terminal
  simp [next, mainSteps, waiterSteps, init]

/-- Facts that hold in every state of a call whose command started. -/
theorem inv_facts (D : Drained) (w : World) (dest₀ : FS) (s : State)
    (hinv : Inv D w dest₀ s) :
    s.rCloses ≤ 1 ∧
      (0 < s.rCloses → s.waitResult = some w.proc.exitErr) ∧
      (∀ ok, s.waiter = WaitPc.send ok → s.rCloses = 1 ∧ s.waitResult = some w.proc.exitErr) ∧
      (s.waiter = WaitPc.done → s.rCloses = 1 ∧ D.ok = true) ∧
      (∀ b, s.main = MainPc.returned b → s.tarResult ≠ none) ∧
      (∀ b err, s.main = MainPc.returned b → s.tarResult = some (true, err) →
        s.waiter = WaitPc.done ∧ s.rCloses = 1) ∧
      (D.verdict = none → s.tarResult ≠ none →
        s.tarResult = some (false, some TarErr.closedPipe) ∧ s.rCloses = 1) ∧
      (s.tarResult ≠ none → s.main ≠ MainPc.start ∧ s.main ≠ MainPc.readTar) := by
  rcases s with ⟨main, waiter, pending, rc, dest, tr, wres, log⟩
  obtain ⟨hst, hW, hM⟩ := hinv
  cases main with
  | start =>
    simp [MainInv] at hM
    simp [hM]
  | readTar =>
    obtain ⟨h1, h2⟩ := hM
    cases waiter <;> simp_all [WaiterInv]
  | readDone ok err =>
    obtain ⟨h1, h2, h3, h4⟩ := hM
    simp only at h1 h2 h3 h4
    subst h1
    rcases h4 with h4 | h4 <;> cases waiter <;> simp_all [WaiterInv]
  | recv =>
    obtain ⟨err, h1, h2, h3, h4⟩ := hM
    simp only at h1 h2 h3 h4
    subst h1
    rcases h4 with h4 | h4 <;> cases waiter <;> simp_all [WaiterInv]
  | returned b =>
    obtain ⟨ok, err, h1, ⟨h2, h3, h4⟩, h5, h6⟩ := hM
    simp only at h1 h2 h3 h4 h5 h6
    subst h1
    cases ok <;> rcases h4 with h4 | h4 <;> cases waiter <;>
      simp_all [WaiterInv, Drained.ok]

end Retrieve

namespace Retrieve

/-- Where a long enough schedule ends: at rest, with the call returned, or with the
caller at the receive and the goroutine waiting for output nobody reads. -/
theorem run_spec (w : World) (hstart : w.proc.startErr = none) (target : BuildTarget)
    (key : List Byte) (dest : FS) (sched : List Nat) (hlen : bound w ≤ sched.length) :
    Inv (drain w.writable dest w.proc.out) w dest (run w sched (init target key dest)) ∧
      next w (run w sched (init target key dest)) = [] ∧
      (((run w sched (init target key dest)).main =
            MainPc.returned ((drain w.writable dest w.proc.out).ok && w.proc.exitErr.isNone) ∧
          (run w sched (init target key dest)).dest = (drain w.writable dest w.proc.out).dest ∧
          ((drain w.writable dest w.proc.out).ok = true →
            (drain w.writable dest w.proc.out).rest = [])) ∨
        ((run w sched (init target key dest)).main = MainPc.recv ∧
          (run w sched (init target key dest)).waiter = WaitPc.wait ∧
          (drain w.writable dest w.proc.out).ok = true ∧
          (drain w.writable dest w.proc.out).rest ≠ [])) := by
  have hinv := inv_run _ w dest sched _ (inv_init w hstart target key dest)
  have hterm := run_terminal w sched (init target key dest) (by rw [bound_eq]; exact hlen)
  refine ⟨hinv, hterm, ?_⟩
  rcases terminal_cases _ w dest _ hinv hterm with ⟨b, hb⟩ | h
  · left
    have := returned_spec _ w dest _ b hinv hb
    exact ⟨this.1 ▸ hb, this.2⟩
  · exact Or.inr h

/-- At rest, the call has returned true exactly when `readTar` reported ok and
`cmd.Wait` reported no error. -/
theorem hit_iff_at_rest (D : Drained) (w : World) (dest₀ : FS) (s : State)
    (hinv : Inv D w dest₀ s) (hterm : next w s = []) :
    s.main = MainPc.returned true ↔
      (s.tarResult.map Prod.fst = some true ∧ s.waitResult = some none) := by
  have hcases := terminal_cases D w dest₀ s hinv hterm
  rcases s with ⟨main, waiter, pending, rc, dest, tr, wres, log⟩
  obtain ⟨hst, hW, hM⟩ := hinv
  constructor
  · intro h
    simp only at h
    subst h
    obtain ⟨ok, err, h1, -, h5, h6⟩ := hM
    simp only at h1 h5 h6
    cases ok with
    | false => simp at h5
    | true =>
      simp at h6
      subst h6 h1
      simp [WaiterInv] at hW
      obtain ⟨-, -, hw, he⟩ := hW
      simp [hw, he]
  · rintro ⟨h1, h2⟩
    simp only at h1 h2
    rcases hcases with ⟨b, hb⟩ | ⟨-, hw, -⟩
    · simp only at hb
      subst hb
      obtain ⟨ok, err, h3, -, h5, h6⟩ := hM
      simp only at h3 h5 h6
      subst h3
      simp at h1
      subst h1
      simp at h6
      subst h6 h2
      simp [WaiterInv] at hW
      obtain ⟨-, -, he, hb⟩ := hW
      simp_all
    · simp only at hw
      subst hw
      simp [WaiterInv] at hW
      simp [hW.2] at h2

end Retrieve

/-- C1: in a call whose command started, once the schedule has run its course
`Retrieve` has returned true exactly when `readTar` reported ok and `cmd.Wait`
returned no error.  The call returns `decoded && exited zero`, the one exception
being a command that keeps writing after a clean archive (then the call never
returns); in particular it returns false when the command fails after a clean
archive, and when the data are truncated or malformed whatever the exit status. -/
theorem retrieve_hit_iff (exec : Cmd → Script) (writable : String → Bool) (dest : FS)
    (cache : cmdCache) (target : BuildTarget) (key : List Byte) (sched : List Nat)
    (hstart : (exec (Retrieve.command cache key)).startErr = none)
    (hlen : (exec (Retrieve.command cache key)).out.length + 7 ≤ sched.length) :
    ((cmdCache.Retrieve exec writable dest cache target key sched).main =
          MainPc.returned true ↔
        ((cmdCache.Retrieve exec writable dest cache target key sched).tarResult.map
            Prod.fst = some true ∧
          (cmdCache.Retrieve exec writable dest cache target key sched).waitResult =
            some none)) ∧
      ((cmdCache.Retrieve exec writable dest cache target key sched).main =
          MainPc.returned
            ((drain writable dest (exec (Retrieve.command cache key)).out).ok &&
              (exec (Retrieve.command cache key)).exitErr.isNone) ∨
        ((drain writable dest (exec (Retrieve.command cache key)).out).ok = true ∧
          (drain writable dest (exec (Retrieve.command cache key)).out).rest ≠ [] ∧
          (cmdCache.Retrieve exec writable dest cache target key sched).main =
            MainPc.recv)) ∧
      ((exec (Retrieve.command cache key)).exitErr ≠ none →
        (drain writable dest (exec (Retrieve.command cache key)).out).rest = [] →
        (cmdCache.Retrieve exec writable dest cache target key sched).main =
          MainPc.returned false) ∧
      ((drain writable dest (exec (Retrieve.command cache key)).out).ok = false →
        (cmdCache.Retrieve exec writable dest cache target key sched).main =
          MainPc.returned false) := by
  have hs := Retrieve.run_spec ⟨exec (Retrieve.command cache key), writable⟩ hstart target
    key dest sched hlen
  obtain ⟨hinv, hterm, hres⟩ := hs
  refine ⟨Retrieve.hit_iff_at_rest _ _ dest _ hinv hterm, ?_, ?_, ?_⟩
  · rcases hres with h | h
    · exact Or.inl h.1
    · exact Or.inr ⟨h.2.2.1, h.2.2.2, h.1⟩
  · intro hexit hrest
    rcases hres with h | h
    · have : (exec (Retrieve.command cache key)).exitErr.isNone = false := by
        cases hx : (exec (Retrieve.command cache key)).exitErr with
        | none => exact absurd hx hexit
        | some e => rfl
      simpa [cmdCache.Retrieve, this] using h.1
    · exact absurd hrest h.2.2.2
  · intro hok
    rcases hres with h | h
    · simpa [cmdCache.Retrieve, hok] using h.1
    · simp [hok] at h

/-- C6: when `cmd.Start` fails, `Retrieve` returns false after its first step:
`readTar` was never called, no goroutine was created, the destination is
untouched, and the log holds the retrieve line and the start error. -/
theorem retrieve_spawn_failure (exec : Cmd → Script) (writable : String → Bool) (dest : FS)
    (cache : cmdCache) (target : BuildTarget) (key : List Byte) (c : Nat) (cs : List Nat)
    (e : String) (hstart : (exec (Retrieve.command cache key)).startErr = some e) :
    (cmdCache.Retrieve exec writable dest cache target key (c :: cs)).main =
        MainPc.returned false ∧
      (cmdCache.Retrieve exec writable dest cache target key (c :: cs)).tarResult = none ∧
      (cmdCache.Retrieve exec writable dest cache target key (c :: cs)).waiter =
        WaitPc.idle ∧
      (cmdCache.Retrieve exec writable dest cache target key (c :: cs)).waitResult = none ∧
      (cmdCache.Retrieve exec writable dest cache target key (c :: cs)).dest = dest ∧
      (cmdCache.Retrieve exec writable dest cache target key (c :: cs)).log =
        [⟨Level.debug, "Retrieve %s: %s from custom cache...",
            [target.Label, keyToString key]⟩,
          ⟨Level.debug, "Unable to start custom retrieve command: %s", [e]⟩] := by
  unfold cmdCache.Retrieve
  rw [Retrieve.spawn_failure_run _ e hstart]
  simp [Retrieve.init]

namespace Retrieve

/-- The error of the closed pipe is reported only after a close. -/
theorem closed_error_after_close (w : World) (dest₀ : FS) (s : State)
    (hinv : Inv (drain w.writable dest₀ w.proc.out) w dest₀ s)
    (h : s.tarResult = some (false, some TarErr.closedPipe)) : 0 < s.rCloses := by
  have hne := drain_not_closed w.writable w.proc.out dest₀ false
  rcases s with ⟨main, waiter, pending, rc, dest, tr, wres, log⟩
  obtain ⟨hst, hW, hM⟩ := hinv
  simp only at h
  subst h
  cases main with
  | start => simp [MainInv] at hM
  | readTar => simp [MainInv] at hM
  | readDone ok err =>
    obtain ⟨h1, -, -, h4⟩ := hM
    simp at h1
    obtain ⟨rfl, rfl⟩ := h1
    rcases h4 with h4 | h4
    · exact absurd h4 hne
    · exact h4.2.2.2
  | recv =>
    obtain ⟨err, h1, -⟩ := hM
    simp at h1
  | returned b =>
    obtain ⟨ok, err, h1, ⟨-, -, h4⟩, -, -⟩ := hM
    simp at h1
    obtain ⟨rfl, rfl⟩ := h1
    rcases h4 with h4 | h4
    · exact absurd h4 hne
    · exact h4.2.2.2

end Retrieve

/-- C8: when the command started and writes nothing, then under every schedule the
read end is closed at most once, only after `cmd.Wait` has returned and before the
goroutine is at its send; `readTar` returns only after that close, with the error
of the closed pipe; and once the schedule has run seven steps `Retrieve` has
returned false, for a zero and for a nonzero exit status alike. -/
theorem retrieve_no_output (exec : Cmd → Script) (writable : String → Bool) (dest : FS)
    (cache : cmdCache) (target : BuildTarget) (key : List Byte) (sched : List Nat)
    (hstart : (exec (Retrieve.command cache key)).startErr = none)
    (hout : (exec (Retrieve.command cache key)).out = []) :
    (7 ≤ sched.length →
        (cmdCache.Retrieve exec writable dest cache target key sched).main =
          MainPc.returned false ∧
        (cmdCache.Retrieve exec writable dest cache target key sched).tarResult =
          some (false, some TarErr.closedPipe) ∧
        (cmdCache.Retrieve exec writable dest cache target key sched).rCloses = 1 ∧
        (cmdCache.Retrieve exec writable dest cache target key sched).waitResult =
          some (exec (Retrieve.command cache key)).exitErr ∧
        (cmdCache.Retrieve exec writable dest cache target key sched).dest = dest) ∧
      (cmdCache.Retrieve exec writable dest cache target key sched).rCloses ≤ 1 ∧
      (0 < (cmdCache.Retrieve exec writable dest cache target key sched).rCloses →
        (cmdCache.Retrieve exec writable dest cache target key sched).waitResult =
          some (exec (Retrieve.command cache key)).exitErr) ∧
      (∀ ok, (cmdCache.Retrieve exec writable dest cache target key sched).waiter =
          WaitPc.send ok →
        (cmdCache.Retrieve exec writable dest cache target key sched).rCloses = 1) ∧
      ((cmdCache.Retrieve exec writable dest cache target key sched).tarResult ≠ none →
        (cmdCache.Retrieve exec writable dest cache target key sched).tarResult =
          some (false, some TarErr.closedPipe) ∧
        (cmdCache.Retrieve exec writable dest cache target key sched).rCloses = 1) ∧
      (∀ b, (cmdCache.Retrieve exec writable dest cache target key sched).main =
          MainPc.returned b → b = false) := by
  have hD : drain writable dest (exec (Retrieve.command cache key)).out = ⟨none, dest, []⟩ := by
    rw [hout]
    rfl
  have hinv := Retrieve.inv_run _ ⟨exec (Retrieve.command cache key), writable⟩ dest sched _
    (Retrieve.inv_init ⟨exec (Retrieve.command cache key), writable⟩ hstart target key dest)
  have hf := Retrieve.inv_facts _ _ dest _ hinv
  obtain ⟨f1, f2, f3, f4, f5, f6, f7, f8⟩ := hf
  simp only [hD] at f7
  refine ⟨?_, f1, f2, fun ok h => (f3 ok h).1, f7 trivial, ?_⟩
  · intro hlen
    have hs := Retrieve.run_spec ⟨exec (Retrieve.command cache key), writable⟩ hstart target
      key dest sched (by simp [Retrieve.bound, hout]; exact hlen)
    obtain ⟨-, -, hres⟩ := hs
    simp only [hD, Drained.ok] at hres
    rcases hres with h | h
    · have hret : (cmdCache.Retrieve exec writable dest cache target key sched).main =
          MainPc.returned false := by simpa [cmdCache.Retrieve] using h.1
      have htr := f7 trivial (f5 false hret)
      exact ⟨hret, htr.1, htr.2, f2 (by rw [htr.2]; decide), h.2.1⟩
    · simp at h
  · intro b hb
    have := Retrieve.returned_spec _ _ dest _ b hinv hb
    simpa [hD, Drained.ok] using this.1

/-- C9, the claim fails: after a failed start `Retrieve` has returned false, is at
rest, and the pipe was never closed; and with a command that writes bytes that are
no archive, the schedule that lets the caller run first makes `Retrieve` return
false before any close. -/
theorem pipe_close_counterexample :
    (cmdCache.Retrieve (fun _ => unstartable) (fun _ => true) [] sampleCache sampleTarget
        sampleKey [0]).main = MainPc.returned false ∧
      (cmdCache.Retrieve (fun _ => unstartable) (fun _ => true) [] sampleCache sampleTarget
        sampleKey [0]).rCloses = 0 ∧
      Retrieve.next ⟨unstartable, fun _ => true⟩
        (cmdCache.Retrieve (fun _ => unstartable) (fun _ => true) [] sampleCache
          sampleTarget sampleKey [0]) = [] ∧
      (cmdCache.Retrieve (fun _ => garbled) (fun _ => true) [] sampleCache sampleTarget
        sampleKey [0, 0, 0]).main = MainPc.returned false ∧
      (cmdCache.Retrieve (fun _ => garbled) (fun _ => true) [] sampleCache sampleTarget
        sampleKey [0, 0, 0]).rCloses = 0 := by
  refine ⟨?_, ?_, ?_, ?_, ?_⟩ <;> decide

/-- C9, as amended: `write` closes the tar writer once and its sink once, whatever
the walks did.  In `Retrieve` the read end is closed at most once, and only after
`cmd.Wait` has returned; when `Retrieve` has returned after `readTar` reported ok
or the error of the closed pipe, it was closed exactly once; when the command could
not be started it is never closed. -/
theorem pipe_close_discipline (fs : SrcFS) (files : List String) (exec : Cmd → Script)
    (writable : String → Bool) (dest : FS) (cache : cmdCache) (target : BuildTarget)
    (key : List Byte) (sched : List Nat) :
    (write fs target files).wCloses = 1 ∧
      (write fs target files).twCloses = 1 ∧
      (cmdCache.Retrieve exec writable dest cache target key sched).rCloses ≤ 1 ∧
      (0 < (cmdCache.Retrieve exec writable dest cache target key sched).rCloses →
        (cmdCache.Retrieve exec writable dest cache target key sched).waitResult =
          some (exec (Retrieve.command cache key)).exitErr) ∧
      (∀ b, (cmdCache.Retrieve exec writable dest cache target key sched).main =
          MainPc.returned b →
        ((cmdCache.Retrieve exec writable dest cache target key sched).tarResult.map
            Prod.fst = some true ∨
          (cmdCache.Retrieve exec writable dest cache target key sched).tarResult =
            some (false, some TarErr.closedPipe)) →
        (cmdCache.Retrieve exec writable dest cache target key sched).rCloses = 1) ∧
      ((exec (Retrieve.command cache key)).startErr ≠ none →
        (cmdCache.Retrieve exec writable dest cache target key sched).rCloses = 0) := by
  refine ⟨by rw [write_eq], by rw [write_eq], ?_⟩
  cases hstart : (exec (Retrieve.command cache key)).startErr with
  | some e =>
    cases sched with
    | nil => simp [cmdCache.Retrieve, Retrieve.run, Retrieve.init]
    | cons c cs =>
      unfold cmdCache.Retrieve
      rw [Retrieve.spawn_failure_run _ e hstart]
      simp [Retrieve.init]
  | none =>
    have hinv := Retrieve.inv_run _ ⟨exec (Retrieve.command cache key), writable⟩ dest sched _
      (Retrieve.inv_init ⟨exec (Retrieve.command cache key), writable⟩ hstart target key dest)
    obtain ⟨f1, f2, f3, f4, f5, f6, f7, f8⟩ := Retrieve.inv_facts _ _ dest _ hinv
    refine ⟨f1, f2, ?_, by simp⟩
    intro b hb htr
    rcases htr with htr | htr
    · cases hres : (cmdCache.Retrieve exec writable dest cache target key sched).tarResult with
      | none => simp [hres] at htr
      | some p =>
        obtain ⟨ok, err⟩ := p
        simp [hres] at htr
        subst htr
        exact (f6 b err hb hres).2
    · have := Retrieve.closed_error_after_close _ dest _ hinv htr
      unfold cmdCache.Retrieve at this ⊢
      omega

/-- C10, the code at a failing input: with a command that writes bytes that are no
archive, the schedule that lets the caller run first makes `Retrieve` return false
while the goroutine is still inside `cmd.Wait`, before any result of the wait
exists; and under no schedule is the goroutine's send on `cmdResult` received. -/
theorem retrieve_returns_before_wait :
    (cmdCache.Retrieve (fun _ => garbled) (fun _ => true) [] sampleCache sampleTarget
        sampleKey [0, 0, 0]).main = MainPc.returned false ∧
      (cmdCache.Retrieve (fun _ => garbled) (fun _ => true) [] sampleCache sampleTarget
        sampleKey [0, 0, 0]).waiter = WaitPc.wait ∧
      (cmdCache.Retrieve (fun _ => garbled) (fun _ => true) [] sampleCache sampleTarget
        sampleKey [0, 0, 0]).waitResult = none ∧
      ∀ sched : List Nat,
        (cmdCache.Retrieve (fun _ => garbled) (fun _ => true) [] sampleCache sampleTarget
          sampleKey sched).waiter ≠ WaitPc.done := by
  refine ⟨by decide, by decide, by decide, ?_⟩
  intro sched hdone
  have hinv := Retrieve.inv_run _ ⟨garbled, fun _ => true⟩ [] sched _
    (Retrieve.inv_init ⟨garbled, fun _ => true⟩ rfl sampleTarget sampleKey [])
  have := (Retrieve.inv_facts _ _ [] _ hinv).2.2.2.1 hdone
  exact absurd this.2 (by decide)

/-! ## Round trip -/

theorem cacheKeyOf_env (p : String) (args : List String) (k : String) :
    cacheKeyOf ⟨p, args, ["CACHE_KEY=" ++ k]⟩ = some k := by
  have hpre : "CACHE_KEY=".data = ['C', 'A', 'C', 'H', 'E', '_', 'K', 'E', 'Y', '='] := by
    decide
  simp [cacheKeyOf, List.findSome?, String.data_append, hpre]

theorem storeFile_ok (fs : SrcFS) (n : String) (h : (storeFile fs [] n).2 = none) :
    ∃ e, (storeFile fs [] n).1 = [Chunk.entry e] ∧ e.name = n ∧
      (fs.lookup n).bind SrcNode.toNode = some e.node := by
  unfold storeFile at h ⊢
  cases hl : fs.lookup n with
  | none => simp [hl] at h
  | some node =>
    cases node with
    | dir => exact ⟨⟨n, true, []⟩, by simp [SrcNode.toNode, ArchiveEntry.node]⟩
    | file c => exact ⟨⟨n, false, c⟩, by simp [SrcNode.toNode, ArchiveEntry.node]⟩
    | unreadable => simp [hl] at h

theorem walkLoop_ok (fs : SrcFS) (names : List String)
    (h : (walkLoop (fun tw name => storeFile fs tw name) [] names).2 = none) :
    (∀ c ∈ (walkLoop (fun tw name => storeFile fs tw name) [] names).1, Good fs c) ∧
      ∀ n ∈ names, ∃ e,
        Chunk.entry e ∈ (walkLoop (fun tw name => storeFile fs tw name) [] names).1 ∧
          e.name = n := by
  induction names with
  | nil => simp [walkLoop]
  | cons n ns ih =>
    simp only [walkLoop] at h ⊢
    cases h2 : (storeFile fs [] n).2 with
    | some e =>
      have : storeFile fs [] n = ((storeFile fs [] n).1, some e) := by rw [← h2]
      rw [this] at h
      simp at h
    | none =>
      have hsf : storeFile fs [] n = ((storeFile fs [] n).1, none) := by rw [← h2]
      obtain ⟨e, he1, he2, he3⟩ := storeFile_ok fs n h2
      rw [hsf] at h ⊢
      simp only at h ⊢
      rw [walkLoop_append] at h ⊢
      simp only at h ⊢
      obtain ⟨ih1, ih2⟩ := ih h
      rw [he1]
      constructor
      · intro c hc
        simp only [List.mem_append, List.mem_singleton] at hc
        rcases hc with hc | hc
        · exact ⟨e, hc, by rw [he2]; exact he3⟩
        · exact ih1 c hc
      · intro m hm
        simp only [List.mem_cons] at hm
        rcases hm with hm | hm
        · exact ⟨e, by simp, by rw [he2, hm]⟩
        · obtain ⟨e', h1, h2⟩ := ih2 m hm
          exact ⟨e', by simp [h1], h2⟩

theorem archived_ok (fs : SrcFS) (root : String) (h : walkErr fs root = none) :
    ∃ names, walkNames fs root = some names ∧
      (∀ c ∈ archived fs root, Good fs c) ∧
      ∀ n ∈ names, ∃ e, Chunk.entry e ∈ archived fs root ∧ e.name = n := by
  unfold walkErr Walk at h
  unfold archived Walk
  cases hw : walkNames fs root with
  | none => simp [hw] at h
  | some names =>
    simp only [hw] at h ⊢
    exact ⟨names, rfl, walkLoop_ok fs names h⟩

theorem write_no_warning (fs : SrcFS) (target : BuildTarget) (files : List String)
    (h : (write fs target files).log = []) :
    ∀ out ∈ files, walkErr fs (path.Join target.OutDir out) = none := by
  rw [write_eq] at h
  simp only [List.flatten_eq_nil_iff, List.mem_map] at h
  intro out hout
  have := h _ ⟨out, hout, rfl⟩
  cases hw : walkErr fs (path.Join target.OutDir out) with
  | none => rfl
  | some e => simp [hw] at this

theorem drain_entries (fs : SrcFS) (cs : List Chunk) (hgood : ∀ c ∈ cs, Good fs c) :
    ∀ dest : FS,
      drain (fun _ => true) dest (cs ++ [Chunk.footer]) =
        ⟨some (true, none), landing cs ++ dest, []⟩ := by
  induction cs with
  | nil => intro dest; simp [drain, readTarStep, landing]
  | cons c rest ih =>
    intro dest
    obtain ⟨e, he, -⟩ := hgood c (List.mem_cons_self c rest)
    subst he
    have := ih (fun c hc => hgood c (List.mem_cons_of_mem _ hc)) ((e.name, e.node) :: dest)
    simp [drain, readTarStep, landing, this]

theorem landing_mem (cs : List Chunk) (e : ArchiveEntry) (h : Chunk.entry e ∈ cs) :
    (e.name, e.node) ∈ landing cs := by
  induction cs with
  | nil => simp at h
  | cons c rest ih =>
    simp only [List.mem_cons] at h
    rcases h with h | h
    · subst h
      simp [landing]
    · cases c <;> simp [landing, ih h]

theorem landing_good (fs : SrcFS) (cs : List Chunk) (hgood : ∀ c ∈ cs, Good fs c) :
    ∀ p ∈ landing cs, (fs.lookup p.1).bind SrcNode.toNode = some p.2 := by
  induction cs with
  | nil => simp [landing]
  | cons c rest ih =>
    intro p hp
    obtain ⟨e, he, hnode⟩ := hgood c (List.mem_cons_self c rest)
    subst he
    simp only [landing, List.mem_append, List.mem_singleton] at hp
    rcases hp with hp | hp
    · exact ih (fun c hc => hgood c (List.mem_cons_of_mem _ hc)) p hp
    · subst hp
      exact hnode

theorem lookup_consistent (l rest : FS) (n : String) (v : Node) (hmem : (n, v) ∈ l)
    (hall : ∀ p ∈ l, p.1 = n → p.2 = v) : (l ++ rest).lookup n = some v := by
  induction l with
  | nil => simp at hmem
  | cons p l ih =>
    obtain ⟨k, x⟩ := p
    by_cases hk : n = k
    · subst hk
      have := hall (n, x) (List.mem_cons_self _ _) rfl
      simp only at this
      subst this
      simp [List.lookup]
    · have hmem' : (n, v) ∈ l := by
        simp only [List.mem_cons, Prod.mk.injEq] at hmem
        rcases hmem with ⟨h, -⟩ | h
        · exact absurd h hk
        · exact h
      have := ih hmem' (fun p hp => hall p (List.mem_cons_of_mem _ hp))
      have hb : (n == k) = false := by simpa using hk
      simpa [List.lookup, hb] using this

theorem landing_footer (cs : List Chunk) : landing (cs ++ [Chunk.footer]) = landing cs := by
  induction cs with
  | nil => rfl
  | cons c rest ih => cases c <;> simp [landing, ih]

theorem faithful_pair (fs : SrcFS) (ext : ExtStore) (cache : cmdCache) (target : BuildTarget)
    (key : List Byte) (files : List String) (hcmd : cache.storeCommand ≠ "") :
    faithfulRetrieve (Store faithfulStore fs ext cache target key files).world
        (Retrieve.command cache key) =
      ⟨none, (write fs target files).stream, "", none⟩ := by
  rw [(store_spawns faithfulStore fs ext cache target key files hcmd).2.2.2]
  simp [faithfulStore, faithfulRetrieve, Retrieve.command, execCommand, cacheKeyOf_env,
    List.lookup]

/-- C2: round trip.  When `Store` runs a faithful store command and logged no walk
error, and `Retrieve` then runs the matching retrieve command under the same key,
every schedule that has run its course ends with `Retrieve` returned true; the
destination tree is the old one with one binding added for each entry written; and
every name a walk of a requested path visited is in it with the node (kind and
bytes) it has in the source tree. -/
theorem store_retrieve_roundtrip (fs : SrcFS) (ext : ExtStore) (dest : FS)
    (cache : cmdCache) (target : BuildTarget) (key : List Byte) (files : List String)
    (sched : List Nat) (hcmd : cache.storeCommand ≠ "")
    (hstored : (write fs target files).log = [])
    (hlen : (write fs target files).stream.length + 7 ≤ sched.length) :
    (cmdCache.Retrieve
        (faithfulRetrieve (Store faithfulStore fs ext cache target key files).world)
        (fun _ => true) dest cache target key sched).main = MainPc.returned true ∧
      (cmdCache.Retrieve
        (faithfulRetrieve (Store faithfulStore fs ext cache target key files).world)
        (fun _ => true) dest cache target key sched).dest =
          landing (write fs target files).stream ++ dest ∧
      ∀ out ∈ files, ∃ names,
        walkNames fs (path.Join target.OutDir out) = some names ∧
        ∀ n ∈ names, ∃ node,
          (fs.lookup n).bind SrcNode.toNode = some node ∧
          (cmdCache.Retrieve
            (faithfulRetrieve (Store faithfulStore fs ext cache target key files).world)
            (fun _ => true) dest cache target key sched).dest.lookup n = some node := by
  have hpair := faithful_pair fs ext cache target key files hcmd
  have hnowarn := write_no_warning fs target files hstored
  have hstream : (write fs target files).stream =
      (files.map fun o => archived fs (path.Join target.OutDir o)).flatten ++
        [Chunk.footer] := by rw [write_eq]
  have hgood : ∀ c ∈ (files.map fun o => archived fs (path.Join target.OutDir o)).flatten,
      Good fs c := by
    intro c hc
    simp only [List.mem_flatten, List.mem_map] at hc
    obtain ⟨l, ⟨o, ho, rfl⟩, hcl⟩ := hc
    obtain ⟨names, -, hg, -⟩ := archived_ok fs _ (hnowarn o ho)
    exact hg c hcl
  have hD := drain_entries fs _ hgood dest
  rw [← hstream] at hD
  have hs := Retrieve.run_spec
    ⟨faithfulRetrieve (Store faithfulStore fs ext cache target key files).world
      (Retrieve.command cache key), fun _ => true⟩
    (by rw [hpair]) target key dest sched (by rw [hpair]; exact hlen)
  obtain ⟨-, -, hres⟩ := hs
  simp only [hpair, hD, Drained.ok] at hres
  rcases hres with h | h
  · have hmain : (cmdCache.Retrieve
        (faithfulRetrieve (Store faithfulStore fs ext cache target key files).world)
        (fun _ => true) dest cache target key sched).main = MainPc.returned true := by
      simpa [cmdCache.Retrieve, hpair] using h.1
    have hdest : (cmdCache.Retrieve
        (faithfulRetrieve (Store faithfulStore fs ext cache target key files).world)
        (fun _ => true) dest cache target key sched).dest =
          landing (files.map fun o => archived fs (path.Join target.OutDir o)).flatten ++
            dest := by
      simpa [cmdCache.Retrieve, hpair] using h.2.1
    refine ⟨hmain, by rw [hdest, hstream, landing_footer], ?_⟩
    intro out hout
    obtain ⟨names, hnames, -, hcover⟩ := archived_ok fs _ (hnowarn out hout)
    refine ⟨names, hnames, ?_⟩
    intro n hn
    obtain ⟨e, he, hename⟩ := hcover n hn
    have hmem : Chunk.entry e ∈
        (files.map fun o => archived fs (path.Join target.OutDir o)).flatten := by
      simp only [List.mem_flatten, List.mem_map]
      exact ⟨_, ⟨out, hout, rfl⟩, he⟩
    obtain ⟨e', he', hnode⟩ := hgood _ hmem
    cases he'
    refine ⟨e.node, by rw [← hename]; exact hnode, ?_⟩
    rw [hdest, ← hename]
    apply lookup_consistent _ _ _ _ (landing_mem _ e hmem)
    intro p hp hpn
    have h1 := landing_good fs _ hgood p hp
    rw [hpn, hnode] at h1
    exact (Option.some.inj h1).symm
  · simp at h

/-! ## The theorems at sample inputs -/

/-- C1 at a sample input: a command that writes an archive of one file and
exits with status zero. -/
theorem retrieve_hit_iff_witness :
    ((fun _ : Cmd => wellBehaved) (Retrieve.command sampleCache sampleKey)).startErr = none ∧
      ((fun _ : Cmd => wellBehaved) (Retrieve.command sampleCache sampleKey)).out.length + 7 ≤
        [0, 1, 0, 1, 0, 1, 0, 1, 0].length ∧
      ((cmdCache.Retrieve (fun _ => wellBehaved) (fun _ => true) [] sampleCache sampleTarget
            sampleKey [0, 1, 0, 1, 0, 1, 0, 1, 0]).main = MainPc.returned true ↔
        ((cmdCache.Retrieve (fun _ => wellBehaved) (fun _ => true) [] sampleCache
            sampleTarget sampleKey [0, 1, 0, 1, 0, 1, 0, 1, 0]).tarResult.map Prod.fst =
            some true ∧
          (cmdCache.Retrieve (fun _ => wellBehaved) (fun _ => true) [] sampleCache
            sampleTarget sampleKey [0, 1, 0, 1, 0, 1, 0, 1, 0]).waitResult = some none)) :=
  ⟨by decide, by decide,
    (retrieve_hit_iff (fun _ => wellBehaved) (fun _ => true) [] sampleCache sampleTarget
      sampleKey [0, 1, 0, 1, 0, 1, 0, 1, 0] (by decide) (by decide)).1⟩

/-- C2 at a sample input: two readable files are stored and
retrieved into an empty tree. -/
theorem store_retrieve_roundtrip_witness :
    sampleCache.storeCommand ≠ "" ∧
      (write sampleTree sampleTarget ["a.o", "c.o"]).log = [] ∧
      (write sampleTree sampleTarget ["a.o", "c.o"]).stream.length + 7 ≤
        [0, 1, 0, 1, 0, 1, 0, 1, 0, 1].length ∧
      (cmdCache.Retrieve
        (faithfulRetrieve
          (Store faithfulStore sampleTree [] sampleCache sampleTarget sampleKey
            ["a.o", "c.o"]).world)
        (fun _ => true) [] sampleCache sampleTarget sampleKey
        [0, 1, 0, 1, 0, 1, 0, 1, 0, 1]).main = MainPc.returned true :=
  ⟨by decide, by decide, by decide,
    (store_retrieve_roundtrip sampleTree [] [] sampleCache sampleTarget sampleKey
      ["a.o", "c.o"] [0, 1, 0, 1, 0, 1, 0, 1, 0, 1] (by decide) (by decide) (by decide)).1⟩

/-- C3 at a sample input: the key of three bytes, at its last byte. -/
theorem cache_key_env_witness :
    sampleCache.storeCommand ≠ "" ∧ 2 < sampleKey.length ∧
      (Store quietShell sampleTree () sampleCache sampleTarget sampleKey []).spawned =
        [⟨"sh", ["sh", "-c", sampleCache.storeCommand],
          ["CACHE_KEY=" ++ keyToString sampleKey]⟩] ∧
      (keyToString sampleKey).length = 2 * sampleKey.length :=
  ⟨by decide, by decide,
    (cache_key_env quietShell sampleTree () (fun _ => wellBehaved) (fun _ => true) []
      sampleCache sampleTarget sampleKey [] [] 2 (by decide) (by decide)).1,
    (cache_key_env quietShell sampleTree () (fun _ => wellBehaved) (fun _ => true) []
      sampleCache sampleTarget sampleKey [] [] 2 (by decide) (by decide)).2.2.1⟩

/-- C4 at a sample input: a cache with a retrieve command only. -/
theorem store_empty_command_witness :
    (cmdCache.mk "" "cat /tmp/cache/$CACHE_KEY").storeCommand = "" ∧
      (Store quietShell sampleTree () (cmdCache.mk "" "cat /tmp/cache/$CACHE_KEY")
        sampleTarget sampleKey ["a.o"]).spawned.length = 0 :=
  ⟨rfl,
    (store_empty_command quietShell sampleTree () (cmdCache.mk "" "cat /tmp/cache/$CACHE_KEY")
      sampleTarget sampleKey ["a.o"] rfl).1⟩

/-- C6 at a sample input: a command that cannot be started. -/
theorem retrieve_spawn_failure_witness :
    ((fun _ : Cmd => unstartable) (Retrieve.command sampleCache sampleKey)).startErr =
        some "fork/exec /bin/sh: resource temporarily unavailable" ∧
      (cmdCache.Retrieve (fun _ => unstartable) (fun _ => true) [] sampleCache sampleTarget
        sampleKey [0]).main = MainPc.returned false :=
  ⟨rfl,
    (retrieve_spawn_failure (fun _ => unstartable) (fun _ => true) [] sampleCache
      sampleTarget sampleKey 0 [] "fork/exec /bin/sh: resource temporarily unavailable"
      rfl).1⟩

/-- C7 at a sample input: three requested files, the second unreadable;
the third is in the stream. -/
theorem write_best_effort_witness :
    sampleCache.storeCommand ≠ "" ∧ "c.o" ∈ ["a.o", "b.o", "c.o"] ∧
      sampleTree.lookup (path.Join sampleTarget.OutDir "c.o") = some (SrcNode.file [3]) ∧
      Chunk.entry ⟨path.Join sampleTarget.OutDir "c.o", false, [3]⟩ ∈
        (write sampleTree sampleTarget ["a.o", "b.o", "c.o"]).stream :=
  ⟨by decide, by decide, by decide,
    (write_best_effort quietShell sampleTree () sampleCache sampleTarget sampleKey
      ["a.o", "b.o", "c.o"] "c.o" [3] (by decide) (by decide) (by decide)).2.2.1⟩

/-- C8 at a sample input: a command that writes nothing and exits with
status one. -/
theorem retrieve_no_output_witness :
    ((fun _ : Cmd => silent) (Retrieve.command sampleCache sampleKey)).startErr = none ∧
      ((fun _ : Cmd => silent) (Retrieve.command sampleCache sampleKey)).out = [] ∧
      (cmdCache.Retrieve (fun _ => silent) (fun _ => true) [] sampleCache sampleTarget
        sampleKey [0, 0, 0, 0, 0, 0, 0]).rCloses ≤ 1 :=
  ⟨rfl, rfl,
    (retrieve_no_output (fun _ => silent) (fun _ => true) [] sampleCache sampleTarget
      sampleKey [0, 0, 0, 0, 0, 0, 0] rfl rfl).2.1⟩

/-- C5, the claim fails: a cache with a store command and an empty retrieve command
spawns a subprocess in `Store`. -/
theorem store_empty_retrieve_counterexample :
    (newCmdCache ⟨"cat > /tmp/cache/$CACHE_KEY", ""⟩).retrieveCommand = "" ∧
      (Store quietShell sampleTree () (newCmdCache ⟨"cat > /tmp/cache/$CACHE_KEY", ""⟩)
        sampleTarget sampleKey ["a.o"]).spawned.length = 1 ∧
      (Store quietShell sampleTree () (newCmdCache ⟨"cat > /tmp/cache/$CACHE_KEY", ""⟩)
        sampleTarget sampleKey ["a.o"]).pipes = 1 ∧
      (Store quietShell sampleTree () (newCmdCache ⟨"cat > /tmp/cache/$CACHE_KEY", ""⟩)
        sampleTarget sampleKey ["a.o"]).writers.length = 1 := by
  refine ⟨rfl, ?_, ?_, ?_⟩ <;> decide

end CmdCache
